import Mathlib

/-!
Verification development for the billhero OCR / billing-extraction module
at apps/web/utils/ocr/mistral-ocr.ts, together with a model of the Graph
Merge Engine described in the design document (that component is not
implemented in the inspected source tree; it is modelled from the spec).

Texts are embedded as lists of characters.  JavaScript regular-expression
matching for the five concrete patterns used by extractBillingData is
embedded by dedicated scanners that reproduce leftmost-match semantics:
the scanner tries each start position from the left, and at a given start
position the greedy/backtracking behaviour of each pattern is reproduced
exactly (for these particular patterns the character classes that feed
the quantifiers are disjoint from the characters that must follow, so
the residual backtracking collapses to the deterministic code below;
the bounded quantifiers of the due-date pattern are treated by the
length analysis noted at the definition).  The JavaScript whitespace
class is modelled by its ASCII part, sufficient for all texts considered
here, and IEEE doubles produced by parseFloat are modelled as exact
rationals; none of the claims depend on float rounding.
-/

namespace BillHero

/-- Character class for the regex digit class backslash-d (ASCII digits). -/
def isDigitChar (c : Char) : Bool := c.isDigit

/-- ASCII part of the JavaScript whitespace class backslash-s. -/
def isSpaceChar (c : Char) : Bool :=
  c = ' ' || c = '\t' || c = '\n' || c = '\r' || c = '\x0b' || c = '\x0c'

/-- Character class appearing as colon-or-whitespace in the source patterns. -/
def isSepChar (c : Char) : Bool := c = ':' || isSpaceChar c

/-- Character class for the regex word class backslash-w (ASCII letters, digits, underscore). -/
def isWordChar (c : Char) : Bool := c.isAlphanum || c = '_'

/-- Lower-casing of a text, modelling JavaScript toLowerCase on ASCII data. -/
def lowerStr (s : List Char) : List Char := s.map Char.toLower

/-- Substring test: containsSub pat t is true iff pat occurs contiguously
inside t.  Models JavaScript String.includes. -/
def containsSub (pat : List Char) : List Char → Bool
  | [] => pat.isEmpty
  | c :: t => pat.isPrefixOf (c :: t) || containsSub pat t

/-- Case-insensitive literal match: strip the (lower-case) literal kw from
the front of s, returning the rest on success.  Models a case-insensitive
regex literal on ASCII data. -/
def stripPrefixCI : List Char → List Char → Option (List Char)
  | [], s => some s
  | _ :: _, [] => none
  | p :: ps, c :: cs => if Char.toLower c = p then stripPrefixCI ps cs else none

/-- Boolean form of stripPrefixCI. -/
def startsWithCI (kw s : List Char) : Bool := (stripPrefixCI kw s).isSome

/-- Tail of the two amount patterns after their keyword: separator class
star, optional dollar sign, then the capture group of digits, optional
dot, more digits.  Returns the capture on success. -/
def matchAmountTail (s : List Char) : Option (List Char) :=
  let s1 := s.dropWhile isSepChar
  let s2 := match s1 with
    | '$' :: t => t
    | _ => s1
  let ds := s2.takeWhile isDigitChar
  if ds.isEmpty then none
  else
    match s2.dropWhile isDigitChar with
    | '.' :: t => some (ds ++ '.' :: t.takeWhile isDigitChar)
    | _ => some ds

/-- Scanner for the patterns matching a case-insensitive keyword followed
by matchAmountTail, trying each start position from the left. -/
def scanKeywordAmount (kw : List Char) : List Char → Option (List Char)
  | [] => none
  | c :: t =>
    match stripPrefixCI kw (c :: t) with
    | some rest =>
      match matchAmountTail rest with
      | some cap => some cap
      | none => scanKeywordAmount kw t
    | none => scanKeywordAmount kw t

/-- Scanner for the third amount pattern: a literal dollar sign followed by
the digits capture group (case sensitive). -/
def scanDollarAmount : List Char → Option (List Char)
  | [] => none
  | c :: t =>
    if c = '$' then
      let ds := t.takeWhile isDigitChar
      if ds.isEmpty then scanDollarAmount t
      else
        match t.dropWhile isDigitChar with
        | '.' :: r => some (ds ++ '.' :: r.takeWhile isDigitChar)
        | _ => some ds
    else scanDollarAmount t

/-- Numeric value of a list of ASCII digits. -/
def digitsToNat (ds : List Char) : Nat :=
  ds.foldl (fun n c => 10 * n + (c.toNat - '0'.toNat)) 0

/-- Rational value of an amount capture (digits, optional dot, digits),
modelling JavaScript parseFloat on such strings exactly. -/
def parseFloatCap (cap : List Char) : ℚ :=
  let intPart := cap.takeWhile isDigitChar
  let rest := cap.dropWhile isDigitChar
  let frac := match rest with
    | '.' :: fs => fs
    | _ => []
  (digitsToNat intPart : ℚ) + (digitsToNat frac : ℚ) / ((10 : ℚ) ^ frac.length)

/-- Amount extraction: the source tries the total pattern, then the amount
pattern, then the bare dollar pattern, taking the first pattern that
matches anywhere in the text. -/
def totalAmountOf (text : List Char) : Option ℚ :=
  match scanKeywordAmount "total".toList text with
  | some cap => some (parseFloatCap cap)
  | none =>
    match scanKeywordAmount "amount".toList text with
    | some cap => some (parseFloatCap cap)
    | none => (scanDollarAmount text).map parseFloatCap

/-- Character class for the date separators slash and hyphen. -/
def isDateSep (c : Char) : Bool := c = '/' || c = '-'

/-- Tail of the due-date pattern after the keyword: separator class star,
then one-or-two digits, date separator, one-or-two digits, date
separator, two-to-four digits (the bounded quantifiers backtrack, which
for digit runs amounts to: a run of more than two digits before a
required separator can never match, and the final run keeps at most four
of its digits, needing at least two). -/
def matchDueTail (s : List Char) : Option (List Char) :=
  let s1 := s.dropWhile isSepChar
  let d1 := s1.takeWhile isDigitChar
  if d1.length = 0 || 2 < d1.length then none
  else
    match s1.dropWhile isDigitChar with
    | [] => none
    | sep1 :: r1 =>
      if isDateSep sep1 then
        let d2 := r1.takeWhile isDigitChar
        if d2.length = 0 || 2 < d2.length then none
        else
          match r1.dropWhile isDigitChar with
          | [] => none
          | sep2 :: r2 =>
            if isDateSep sep2 then
              let d3 := r2.takeWhile isDigitChar
              if d3.length < 2 then none
              else some (d1 ++ sep1 :: (d2 ++ sep2 :: d3.take 4))
            else none
      else none

/-- Scanner for the due-date pattern, trying each start position. -/
def scanDue : List Char → Option (List Char)
  | [] => none
  | c :: t =>
    match stripPrefixCI "due".toList (c :: t) with
    | some rest =>
      match matchDueTail rest with
      | some cap => some cap
      | none => scanDue t
    | none => scanDue t

/-- Tail of the invoice-number pattern after the keyword: separator class
star, optional hash, then at least one word character. -/
def matchInvoiceTail (s : List Char) : Option (List Char) :=
  let s1 := s.dropWhile isSepChar
  match s1 with
  | '#' :: r =>
    let ws := r.takeWhile isWordChar
    if ws.isEmpty then none else some ('#' :: ws)
  | _ =>
    let ws := s1.takeWhile isWordChar
    if ws.isEmpty then none else some ws

/-- Scanner for the invoice-number pattern, trying each start position. -/
def scanInvoice : List Char → Option (List Char)
  | [] => none
  | c :: t =>
    match stripPrefixCI "invoice".toList (c :: t) with
    | some rest =>
      match matchInvoiceTail rest with
      | some cap => some cap
      | none => scanInvoice t
    | none => scanInvoice t

/-- Split a text into its lines at newline characters; the result is the
list of anchor positions of a multiline start-of-line anchor, in order. -/
def splitOnNewline : List Char → List (List Char)
  | [] => [[]]
  | c :: t =>
    let rest := splitOnNewline t
    if c = '\n' then [] :: rest
    else
      match rest with
      | [] => [[c]]
      | l :: ls => (c :: l) :: ls

/-- Lazy capture of the vendor pattern inside one line: the shortest
prefix of the line after which the literal invoice or bill matches
case-insensitively; none when neither occurs in the line. -/
def vendorPrefix : List Char → Option (List Char)
  | [] => none
  | c :: t =>
    if startsWithCI "invoice".toList (c :: t) || startsWithCI "bill".toList (c :: t) then
      some []
    else (vendorPrefix t).map (fun p => c :: p)

/-- First line (in order) whose vendorPrefix matches, modelling the
multiline anchored search of the vendor pattern. -/
def firstVendorOfLines : List (List Char) → Option (List Char)
  | [] => none
  | l :: ls =>
    match vendorPrefix l with
    | some p => some p
    | none => firstVendorOfLines ls

/-- Whitespace trimming at both ends, modelling JavaScript String.trim
on ASCII data. -/
def trimStr (s : List Char) : List Char :=
  ((s.dropWhile isSpaceChar).reverse.dropWhile isSpaceChar).reverse

/-- Vendor extraction: the anchored multiline search followed by trim. -/
def vendorOf (text : List Char) : Option (List Char) :=
  (firstVendorOfLines (splitOnNewline text)).map trimStr

/-- Document-type classification, translated from the if-else chain of the
source: phone or telecom first, then legal or attorney, then invoice. -/
def classifyDocumentType (text : List Char) : Option (List Char) :=
  let lt := lowerStr text
  if containsSub "phone".toList lt || containsSub "telecom".toList lt then
    some "phone_bill".toList
  else if containsSub "legal".toList lt || containsSub "attorney".toList lt then
    some "legal_invoice".toList
  else if containsSub "invoice".toList lt then
    some "invoice".toList
  else none

/-- Parsed JSON body of the OCR response, as consumed by
extractBillingData: a text field and a json field, either possibly
absent.  The json field is bound but never used by the source. -/
structure OcrResponse where
  text : Option (List Char)
  json : Option (List Char)
  deriving DecidableEq, Repr

/-- Shape of the extractedData object built by extractBillingData: exactly
the five optional fields declared at lines 10 to 16 of the source. -/
structure ExtractedData where
  documentType : Option (List Char)
  totalAmount : Option ℚ
  dueDate : Option (List Char)
  vendor : Option (List Char)
  invoiceNumber : Option (List Char)
  deriving DecidableEq, Repr

/-- Embedding of extractBillingData from the source: pattern extraction of
amount, due date, invoice number, vendor, and the document-type
classification, from the text field of the OCR result (absent text is
read as the empty string, as in the source). -/
def extractBillingData (ocrResult : OcrResponse) : ExtractedData :=
  let text := ocrResult.text.getD []
  { documentType := classifyDocumentType text
    totalAmount := totalAmountOf text
    dueDate := scanDue text
    vendor := vendorOf text
    invoiceNumber := scanInvoice text }

/-- Reading the confidence property of the object returned by
extractBillingData.  The object literal at lines 225 to 231 of the source
carries exactly the five fields above and no confidence key, so in
JavaScript this property read yields undefined on every result. -/
def ExtractedData.confidence (_ : ExtractedData) : Option ℚ := none

/-- Email attachment, with the fields of the source's Attachment type that
this module reads. -/
structure Attachment where
  attachmentId : List Char
  filename : List Char
  mimeType : List Char
  deriving DecidableEq, Repr

/-- Parsed email message, with the fields of the source's ParsedMessage
type that this module reads: id, subject, the from header, and the
possibly-absent attachment list. -/
structure ParsedMessage where
  id : List Char
  subject : List Char
  headersFrom : List Char
  attachments : Option (List Attachment)
  deriving DecidableEq, Repr

/-- Result record of OCR processing for one attachment, from the source's
MistralOCRResult interface. -/
structure MistralOCRResult where
  attachmentId : List Char
  filename : List Char
  success : Bool
  ocrText : Option (List Char)
  extractedData : Option ExtractedData
  error : Option (List Char)
  deriving DecidableEq, Repr

/-- Attachment together with its optional OCR result, from the source's
EnrichedAttachment interface (which extends Attachment). -/
structure EnrichedAttachment where
  attachment : Attachment
  ocrResult : Option MistralOCRResult
  deriving DecidableEq, Repr

/-- Message together with the optional enriched attachment list, from the
source's EnrichedMessage interface (which extends ParsedMessage). -/
structure EnrichedMessage where
  message : ParsedMessage
  enrichedAttachments : Option (List EnrichedAttachment)
  deriving DecidableEq, Repr

/-- JavaScript Error value: a name and a message.  A value built by the
expression new Error of a message has name Error; any distinguished error
class would carry its own name. -/
structure JsError where
  name : List Char
  message : List Char
  deriving DecidableEq, Repr

/-- Payload returned by the email provider for one attachment. -/
structure AttachmentData where
  data : List Char
  size : Nat
  deriving DecidableEq, Repr

/-- Response of the fetch call to the OCR endpoint: the ok flag, status
and status text, and the parsed JSON body (parsing could itself throw,
hence the Except). -/
structure FetchResponse where
  ok : Bool
  status : Nat
  statusText : List Char
  body : Except JsError OcrResponse

/-- External world of the module, as a deterministic oracle: the email
provider's getAttachment (keyed by message id and attachment id) and the
network fetch of the OCR endpoint (keyed by filename and base64 data).
An Except error models a thrown exception or rejected promise. -/
structure Env where
  getAttachment : List Char → List Char → Except JsError AttachmentData
  fetchOcr : List Char → List Char → Except JsError FetchResponse

/-- Observable external calls of the module.  Logging calls are omitted:
they perform no fetches and carry no data back. -/
inductive Effect where
  | getAttachment (messageId attachmentId : List Char)
  | fetchOcr (filename : List Char)
  deriving DecidableEq, Repr

/-- Mime type string selecting PDF attachments in the source. -/
def pdfMime : List Char := "application/pdf".toList

/-- Embedding of processPDFWithMistralOCR: fetch the attachment data,
post it to the OCR endpoint, and on an ok response build the success
record with the extracted billing data; a non-ok response throws a plain
Error whose message starts with Mistral OCR API error followed by the
status and status text.  The source's catch block reports the exception
and rethrows it unchanged, so every failure propagates as the Except
error.  The second component is the trace of external calls made. -/
def processPDFWithMistralOCR (env : Env) (messageId : List Char) (attachment : Attachment) :
    Except JsError MistralOCRResult × List Effect :=
  match env.getAttachment messageId attachment.attachmentId with
  | .error e => (.error e, [.getAttachment messageId attachment.attachmentId])
  | .ok attachmentData =>
    let tr : List Effect :=
      [.getAttachment messageId attachment.attachmentId, .fetchOcr attachment.filename]
    match env.fetchOcr attachment.filename attachmentData.data with
    | .error e => (.error e, tr)
    | .ok response =>
      if response.ok then
        match response.body with
        | .error e => (.error e, tr)
        | .ok result =>
          (.ok { attachmentId := attachment.attachmentId
                 filename := attachment.filename
                 success := true
                 ocrText := some (result.text.getD [])
                 extractedData := some (extractBillingData result)
                 error := none }, tr)
      else
        (.error { name := "Error".toList
                  message := ("Mistral OCR API error: " ++ Nat.repr response.status ++ " ").toList
                    ++ response.statusText }, tr)

/-- Failure record pushed by the catch branch of processPDFAttachments for
a PDF attachment whose processing threw. -/
def mistralFailureResult (attachment : Attachment) (e : JsError) : MistralOCRResult :=
  { attachmentId := attachment.attachmentId
    filename := attachment.filename
    success := false
    ocrText := none
    extractedData := none
    error := some e.message }

/-- Body of the attachment loop in processPDFAttachments: a PDF attachment
is processed (a thrown error being converted to a failure record), a
non-PDF attachment is kept as is. -/
def enrichOneAttachment (env : Env) (messageId : List Char) (attachment : Attachment) :
    EnrichedAttachment × List Effect :=
  if attachment.mimeType == pdfMime then
    match processPDFWithMistralOCR env messageId attachment with
    | (.ok r, tr) => (⟨attachment, some r⟩, tr)
    | (.error e, tr) => (⟨attachment, some (mistralFailureResult attachment e)⟩, tr)
  else (⟨attachment, none⟩, [])

/-- Embedding of processPDFAttachments: with an absent or empty attachment
list, or no PDF attachment, the message is returned unchanged; otherwise
every attachment is enriched in order.  The second component is the trace
of external calls. -/
def processPDFAttachments (env : Env) (message : ParsedMessage) :
    EnrichedMessage × List Effect :=
  match message.attachments with
  | none => (⟨message, none⟩, [])
  | some atts =>
    if atts.isEmpty then (⟨message, none⟩, [])
    else
      let pdfAttachments := atts.filter (fun a => a.mimeType == pdfMime)
      if pdfAttachments.isEmpty then (⟨message, none⟩, [])
      else
        (⟨message, some (atts.map (fun a => (enrichOneAttachment env message.id a).1))⟩,
         atts.flatMap (fun a => (enrichOneAttachment env message.id a).2))

/-- Keyword list of isLikelyBillingMessage, in source order. -/
def billingKeywords : List (List Char) :=
  ["invoice".toList, "bill".toList, "statement".toList, "payment".toList, "due".toList,
   "attorney".toList, "legal".toList, "phone".toList, "utility".toList, "telecom".toList,
   "mobile".toList, "verizon".toList, "at&t".toList, "t-mobile".toList]

/-- Embedding of isLikelyBillingMessage: some billing keyword occurs in
the lower-cased subject or from header, and some attachment is a PDF
(an absent attachment list counts as no PDF). -/
def isLikelyBillingMessage (message : ParsedMessage) : Bool :=
  let subject := lowerStr message.subject
  let fromHeader := lowerStr message.headersFrom
  let hasBillingKeyword :=
    billingKeywords.any (fun k => containsSub k subject || containsSub k fromHeader)
  let hasPDFAttachments :=
    match message.attachments with
    | some atts => atts.any (fun a => a.mimeType == pdfMime)
    | none => false
  hasBillingKeyword && hasPDFAttachments

/-- Number of getAttachment calls in a trace. -/
def countGetAttachment (tr : List Effect) : Nat :=
  (tr.filter (fun e => match e with
    | .getAttachment _ _ => true
    | .fetchOcr _ => false)).length

/-- Number of OCR endpoint calls in a trace. -/
def countFetchOcr (tr : List Effect) : Nat :=
  (tr.filter (fun e => match e with
    | .getAttachment _ _ => false
    | .fetchOcr _ => true)).length

/-- Lookup in an association list by key. -/
def lookupKey {α β : Type} [DecidableEq α] (k : α) : List (α × β) → Option β
  | [] => none
  | (k1, v) :: t => if k1 = k then some v else lookupKey k t

/-- Store a value under a key in an association list, replacing the first
existing entry for that key, else appending. -/
def setEntry {α β : Type} [DecidableEq α] (k : α) (v : β) : List (α × β) → List (α × β)
  | [] => [(k, v)]
  | (k1, v1) :: t => if k1 = k then (k, v) :: t else (k1, v1) :: setEntry k v t

/-- Add an element to a set represented as a duplicate-free list, keeping
the list unchanged when the element is already present. -/
def insertIfAbsent {α : Type} [DecidableEq α] (x : α) (l : List α) : List α :=
  if x ∈ l then l else l ++ [x]

/-- Add a batch of elements with insertIfAbsent, left to right. -/
def insertAll {α : Type} [DecidableEq α] (xs : List α) (l : List α) : List α :=
  xs.foldl (fun acc x => insertIfAbsent x acc) l

/-- Modelled from the spec: a normalized communication record delivered to
the Graph Merge Engine (the engine itself is not implemented in the
inspected source tree).  The natural key identifies the record; the
participants are the person references already produced by the Entity
Resolver. -/
structure NormalizedRecord where
  key : List Char
  timestamp : Nat
  summary : Option (List Char)
  sourcePtr : Option (List Char)
  participants : List (List Char)
  deriving DecidableEq, Repr

/-- Modelled from the spec: the BillingExtraction record of the extraction
contract, with the five optional fields and a confidence. -/
structure BillingExtraction where
  documentType : Option (List Char)
  totalAmount : Option ℚ
  dueDate : Option (List Char)
  vendor : Option (List Char)
  invoiceNumber : Option (List Char)
  confidence : ℚ
  deriving DecidableEq, Repr

/-- Modelled from the spec: lifecycle status of a billable event. -/
inductive EventStatus where
  | draft
  | approved
  | rejected
  deriving DecidableEq, Repr

/-- Modelled from the spec: a BillableEvent node; its identity key in the
graph is the pair of record key and case key, and forCase is the
denormalized case edge that the merge engine verifies. -/
structure BillableEvent where
  description : List Char
  duration : ℚ
  status : EventStatus
  forCase : List Char
  deriving DecidableEq, Repr

/-- Modelled from the spec: the graph state touched by merge, namely the
registered cases, the communication records keyed by natural key, the
participant edges, the RELATES_TO edges, and the billable events keyed by
record key and case key. -/
structure GraphState where
  cases : List (List Char)
  records : List (List Char × NormalizedRecord)
  participantEdges : List (List Char × List Char)
  relatesTo : List (List Char × List Char)
  events : List ((List Char × List Char) × BillableEvent)
  deriving DecidableEq, Repr

/-- Modelled from the spec: the merge error taxonomy relevant to the merge
engine. -/
inductive MergeError where
  | unknownCaseError
  | dataIntegrityError
  deriving DecidableEq, Repr

/-- Modelled from the spec: the document types counting as billable. -/
def billableTypes : List (List Char) :=
  ["invoice".toList, "legal_invoice".toList, "phone_bill".toList]

/-- Modelled from the spec: an extraction carries a billing signal when it
has non-zero confidence and either an amount or a billable document
type. -/
def hasBillingSignal : Option BillingExtraction → Bool
  | none => false
  | some e =>
    (0 < e.confidence : Bool) &&
      (e.totalAmount.isSome ||
        (match e.documentType with
         | some t => billableTypes.contains t
         | none => false))

/-- Modelled from the spec: deterministic description of a billable event,
derived from the extraction and the record. -/
def eventDescription (r : NormalizedRecord) (e : BillingExtraction) : List Char :=
  (e.vendor.getD r.key) ++
    (match e.invoiceNumber with
     | some n => ' ' :: n
     | none => [])

/-- Modelled from the spec: a fixed positive suggested duration, since the
spec derives no duration from the extraction. -/
def defaultDuration : ℚ := 1 / 10

/-- Modelled from the spec, merge step one: upsert the record by natural
key, never overwriting an existing summary or source pointer. -/
def upsertRecord (r : NormalizedRecord) (records : List (List Char × NormalizedRecord)) :
    List (List Char × NormalizedRecord) :=
  match lookupKey r.key records with
  | none => setEntry r.key r records
  | some old =>
    setEntry r.key
      { old with
        summary := old.summary.orElse (fun _ => r.summary)
        sourcePtr := old.sourcePtr.orElse (fun _ => r.sourcePtr) } records

/-- Modelled from the spec, merge step four: upsert the billable event
keyed by record key and case key; create it as a draft when absent, amend
description and duration only while it is still a draft, and leave
decided events untouched. -/
def upsertEvent (r : NormalizedRecord) (e : BillingExtraction) (caseKey : List Char)
    (events : List ((List Char × List Char) × BillableEvent)) :
    List ((List Char × List Char) × BillableEvent) :=
  match lookupKey (r.key, caseKey) events with
  | none =>
    setEntry (r.key, caseKey)
      { description := eventDescription r e
        duration := defaultDuration
        status := EventStatus.draft
        forCase := caseKey } events
  | some ev =>
    if ev.status = EventStatus.draft then
      setEntry (r.key, caseKey)
        { ev with description := eventDescription r e, duration := defaultDuration } events
    else events

/-- Modelled from the spec: the event table update of merge, applied only
when the extraction carries a billing signal. -/
def mergeEvents (r : NormalizedRecord) (extraction : Option BillingExtraction)
    (caseKey : List Char) (events : List ((List Char × List Char) × BillableEvent)) :
    List ((List Char × List Char) × BillableEvent) :=
  match extraction with
  | some e => if hasBillingSignal (some e) then upsertEvent r e caseKey events else events
  | none => events

/-- Modelled from the spec: the state produced by a successful merge,
before the integrity verification. -/
def mergeState (r : NormalizedRecord) (extraction : Option BillingExtraction)
    (caseKey : List Char) (s : GraphState) : GraphState :=
  { cases := s.cases
    records := upsertRecord r s.records
    participantEdges := insertAll (r.participants.map (fun p => (p, r.key))) s.participantEdges
    relatesTo := insertIfAbsent (r.key, caseKey) s.relatesTo
    events := mergeEvents r extraction caseKey s.events }

/-- Modelled from the spec: the merge operation of the Graph Merge Engine,
steps one to five.  The whole call is transactional, so an error returns
no state.  An unknown case fails with unknownCaseError; a denormalized
forCase edge differing from the RELATES_TO case fails with
dataIntegrityError and is never silently repaired. -/
def merge (r : NormalizedRecord) (extraction : Option BillingExtraction)
    (caseKey : List Char) (s : GraphState) : Except MergeError GraphState :=
  if caseKey ∈ s.cases then
    match lookupKey (r.key, caseKey) (mergeState r extraction caseKey s).events with
    | some ev =>
      if ev.forCase = caseKey then Except.ok (mergeState r extraction caseKey s)
      else Except.error MergeError.dataIntegrityError
    | none => Except.ok (mergeState r extraction caseKey s)
  else Except.error MergeError.unknownCaseError

/-- Modelled from the spec: n successive merge calls of the same triple,
chained through the transactional result. -/
def iterateMerge (r : NormalizedRecord) (extraction : Option BillingExtraction)
    (caseKey : List Char) : Nat → GraphState → Except MergeError GraphState
  | 0, s => Except.ok s
  | n + 1, s => (iterateMerge r extraction caseKey n s).bind (merge r extraction caseKey)

/-- Stated from the spec's words for comparison with the source: the fixed
ordered list of keyword-set to type rules of document-type
classification, in the declaration order of the source's if-else
chain. -/
def docTypeRules : List (List (List Char) × List Char) :=
  [(["phone".toList, "telecom".toList], "phone_bill".toList),
   (["legal".toList, "attorney".toList], "legal_invoice".toList),
   (["invoice".toList], "invoice".toList)]

/-- Stated from the spec's words: a text matches a rule when some keyword
of the rule occurs in the lower-cased text. -/
def ruleMatches (text : List Char) (kws : List (List Char)) : Bool :=
  kws.any (fun k => containsSub k (lowerStr text))

/-- Stated from the spec's words: first-match-wins lookup into the rule
list. -/
def firstMatchType (text : List Char) : Option (List Char) :=
  (docTypeRules.find? (fun rule => ruleMatches text rule.1)).map (fun rule => rule.2)

theorem lookupKey_setEntry {α β : Type} [DecidableEq α] (k : α) (v : β) :
    ∀ l : List (α × β), lookupKey k (setEntry k v l) = some v
  | [] => by simp [setEntry, lookupKey]
  | (k1, v1) :: t => by
    by_cases h : k1 = k
    · simp [setEntry, h, lookupKey]
    · simp [setEntry, h, lookupKey, lookupKey_setEntry k v t]

theorem setEntry_of_lookup {α β : Type} [DecidableEq α] (k : α) (v : β) :
    ∀ l : List (α × β), lookupKey k l = some v → setEntry k v l = l
  | [] => by simp [lookupKey]
  | (k1, v1) :: t => by
    by_cases h : k1 = k
    · intro hl
      simp [lookupKey, h] at hl
      simp [setEntry, h, hl]
    · intro hl
      simp [lookupKey, h] at hl
      simp [setEntry, h, setEntry_of_lookup k v t hl]

theorem insertIfAbsent_of_mem {α : Type} [DecidableEq α] {x : α} {l : List α}
    (h : x ∈ l) : insertIfAbsent x l = l := by
  simp [insertIfAbsent, h]

theorem mem_insertIfAbsent_self {α : Type} [DecidableEq α] (x : α) (l : List α) :
    x ∈ insertIfAbsent x l := by
  by_cases h : x ∈ l
  · simp [insertIfAbsent, h]
  · simp [insertIfAbsent, h]

theorem mem_insertIfAbsent_of_mem {α : Type} [DecidableEq α] {y : α} (x : α) {l : List α}
    (h : y ∈ l) : y ∈ insertIfAbsent x l := by
  by_cases hx : x ∈ l
  · simpa [insertIfAbsent, hx]
  · simp [insertIfAbsent, hx]
    exact Or.inl h

theorem mem_insertAll_of_mem {α : Type} [DecidableEq α] {y : α} :
    ∀ (xs : List α) {l : List α}, y ∈ l → y ∈ insertAll xs l
  | [], _, h => h
  | x :: xs, _, h =>
    mem_insertAll_of_mem xs (mem_insertIfAbsent_of_mem x h)

theorem mem_insertAll_self {α : Type} [DecidableEq α] {y : α} :
    ∀ (xs : List α) (l : List α), y ∈ xs → y ∈ insertAll xs l
  | x :: xs, l, h => by
    rcases List.mem_cons.mp h with h1 | h2
    · subst h1
      exact mem_insertAll_of_mem xs (mem_insertIfAbsent_self y l)
    · exact mem_insertAll_self xs _ h2

theorem insertAll_of_forall_mem {α : Type} [DecidableEq α] :
    ∀ (xs : List α) (l : List α), (∀ x ∈ xs, x ∈ l) → insertAll xs l = l
  | [], _, _ => rfl
  | x :: xs, l, h => by
    have hx : x ∈ l := h x (List.mem_cons_self x xs)
    show insertAll xs (insertIfAbsent x l) = l
    rw [insertIfAbsent_of_mem hx]
    exact insertAll_of_forall_mem xs l (fun y hy => h y (List.mem_cons_of_mem x hy))

theorem insertAll_idem {α : Type} [DecidableEq α] (xs : List α) (l : List α) :
    insertAll xs (insertAll xs l) = insertAll xs l :=
  insertAll_of_forall_mem xs _ (fun _ hx => mem_insertAll_self xs l hx)

theorem insertIfAbsent_idem {α : Type} [DecidableEq α] (x : α) (l : List α) :
    insertIfAbsent x (insertIfAbsent x l) = insertIfAbsent x l :=
  insertIfAbsent_of_mem (mem_insertIfAbsent_self x l)

theorem orElse_self {γ : Type} (a : Option γ) : (a.orElse fun _ => a) = a := by
  cases a <;> rfl

theorem orElse_absorb {γ : Type} (a b : Option γ) :
    ((a.orElse fun _ => b).orElse fun _ => b) = a.orElse fun _ => b := by
  cases a <;> cases b <;> rfl

theorem upsertRecord_idem (r : NormalizedRecord) (l : List (List Char × NormalizedRecord)) :
    upsertRecord r (upsertRecord r l) = upsertRecord r l := by
  unfold upsertRecord
  cases h : lookupKey r.key l with
  | none =>
    simp only [h, lookupKey_setEntry]
    have hr : ({ r with
        summary := r.summary.orElse fun _ => r.summary
        sourcePtr := r.sourcePtr.orElse fun _ => r.sourcePtr } : NormalizedRecord) = r := by
      cases r
      simp [orElse_self]
    rw [hr]
    exact setEntry_of_lookup _ _ _ (lookupKey_setEntry _ _ _)
  | some old =>
    simp only [h, lookupKey_setEntry]
    have hm : ({ old with
        summary := ((old.summary.orElse fun _ => r.summary).orElse fun _ => r.summary)
        sourcePtr := ((old.sourcePtr.orElse fun _ => r.sourcePtr).orElse fun _ => r.sourcePtr) }
          : NormalizedRecord) =
        { old with
          summary := old.summary.orElse fun _ => r.summary
          sourcePtr := old.sourcePtr.orElse fun _ => r.sourcePtr } := by
      simp [orElse_absorb]
    rw [hm]
    exact setEntry_of_lookup _ _ _ (lookupKey_setEntry _ _ _)

theorem upsertEvent_idem (r : NormalizedRecord) (e : BillingExtraction) (c : List Char)
    (l : List ((List Char × List Char) × BillableEvent)) :
    upsertEvent r e c (upsertEvent r e c l) = upsertEvent r e c l := by
  unfold upsertEvent
  cases h : lookupKey (r.key, c) l with
  | none =>
    simp only [h, lookupKey_setEntry]
    exact setEntry_of_lookup _ _ _ (lookupKey_setEntry _ _ _)
  | some ev =>
    by_cases hs : ev.status = EventStatus.draft
    · simp only [h, hs, if_true, lookupKey_setEntry]
      exact setEntry_of_lookup _ _ _ (lookupKey_setEntry _ _ _)
    · simp only [h, hs, if_false]

theorem mergeEvents_idem (r : NormalizedRecord) (extraction : Option BillingExtraction)
    (c : List Char) (l : List ((List Char × List Char) × BillableEvent)) :
    mergeEvents r extraction c (mergeEvents r extraction c l) = mergeEvents r extraction c l := by
  cases extraction with
  | none => rfl
  | some e =>
    unfold mergeEvents
    by_cases h : hasBillingSignal (some e)
    · simp [h, upsertEvent_idem]
    · simp [h]

theorem mergeState_idem (r : NormalizedRecord) (extraction : Option BillingExtraction)
    (c : List Char) (s : GraphState) :
    mergeState r extraction c (mergeState r extraction c s) = mergeState r extraction c s := by
  unfold mergeState
  simp [upsertRecord_idem, insertAll_idem, insertIfAbsent_idem, mergeEvents_idem]

theorem merge_ok_elim {r : NormalizedRecord} {extraction : Option BillingExtraction}
    {c : List Char} {s s1 : GraphState} (h : merge r extraction c s = Except.ok s1) :
    c ∈ s.cases ∧ s1 = mergeState r extraction c s ∧
      (∀ ev, lookupKey (r.key, c) (mergeState r extraction c s).events = some ev →
        ev.forCase = c) := by
  unfold merge at h
  split at h
  case isFalse => exact absurd h (by simp)
  case isTrue hc =>
    refine ⟨hc, ?_⟩
    cases hev : lookupKey (r.key, c) (mergeState r extraction c s).events with
    | some ev =>
      simp only [hev] at h
      by_cases hfc : ev.forCase = c
      · rw [if_pos hfc] at h
        have hs1 : mergeState r extraction c s = s1 := by
          injection h
        refine ⟨hs1.symm, ?_⟩
        intro ev2 hev2
        injection hev2 with hev3
        rw [← hev3]
        exact hfc
      · rw [if_neg hfc] at h
        exact absurd h (by simp)
    | none =>
      simp only [hev] at h
      have hs1 : mergeState r extraction c s = s1 := by injection h
      refine ⟨hs1.symm, ?_⟩
      intro ev2 hev2
      exact absurd hev2 (by simp)

theorem stripPrefixCI_isSome (kw : List Char) :
    ∀ s : List Char, (stripPrefixCI kw s).isSome = kw.isPrefixOf (lowerStr s) := by
  induction kw with
  | nil => intro s; cases s <;> rfl
  | cons p ps ih =>
    intro s
    cases s with
    | nil => rfl
    | cons c cs =>
      show (if Char.toLower c = p then stripPrefixCI ps cs else none).isSome =
        ((p == Char.toLower c) && ps.isPrefixOf (lowerStr cs))
      by_cases h : Char.toLower c = p
      · rw [if_pos h]
        have hbe : (p == Char.toLower c) = true := by rw [h]; exact beq_self_eq_true p
        rw [hbe, Bool.true_and]
        exact ih cs
      · rw [if_neg h]
        have hbe : (p == Char.toLower c) = false :=
          beq_eq_false_iff_ne.mpr (fun hh => h hh.symm)
        rw [hbe, Bool.false_and]
        rfl

theorem containsSub_iff_occurs (pat : List Char) :
    ∀ t : List Char, containsSub pat t = true ↔ pat <:+: t := by
  intro t
  induction t with
  | nil =>
    simp [containsSub, List.isEmpty_iff, List.infix_nil]
  | cons c t ih =>
    simp only [containsSub, Bool.or_eq_true, List.isPrefixOf_iff_prefix, ih,
      List.infix_cons_iff]

theorem containsSub_false_of_infix {pat l m : List Char} (h : containsSub pat m = false)
    (hlm : l <:+: m) : containsSub pat l = false := by
  by_contra hc
  have : containsSub pat l = true := by
    cases hcl : containsSub pat l
    · exact absurd hcl hc
    · rfl
  have : pat <:+: m := ((containsSub_iff_occurs pat l).mp this).trans hlm
  rw [(containsSub_iff_occurs pat m).mpr this] at h
  cases h

theorem scanKeywordAmount_eq_none (kw : List Char) :
    ∀ t : List Char, containsSub kw (lowerStr t) = false → scanKeywordAmount kw t = none := by
  intro t
  induction t with
  | nil => intro _; rfl
  | cons c t ih =>
    intro h
    have hl : lowerStr (c :: t) = Char.toLower c :: lowerStr t := rfl
    rw [hl] at h
    simp only [containsSub, Bool.or_eq_false_iff] at h
    obtain ⟨hpre, htail⟩ := h
    have hstrip : stripPrefixCI kw (c :: t) = none := by
      cases hs : stripPrefixCI kw (c :: t) with
      | none => rfl
      | some rest =>
        have : (stripPrefixCI kw (c :: t)).isSome = true := by rw [hs]; rfl
        rw [stripPrefixCI_isSome] at this
        rw [show lowerStr (c :: t) = Char.toLower c :: lowerStr t from rfl] at this
        rw [this] at hpre
        cases hpre
    show (match stripPrefixCI kw (c :: t) with
      | some rest =>
        match matchAmountTail rest with
        | some cap => some cap
        | none => scanKeywordAmount kw t
      | none => scanKeywordAmount kw t) = none
    rw [hstrip]
    exact ih htail

theorem scanDollarAmount_eq_none :
    ∀ t : List Char, ('$' ∉ t) → scanDollarAmount t = none := by
  intro t
  induction t with
  | nil => intro _; rfl
  | cons c t ih =>
    intro h
    have hc : ¬ c = '$' := fun hh => h (hh ▸ List.mem_cons_self c t)
    have ht : '$' ∉ t := fun hh => h (List.mem_cons_of_mem c hh)
    show (if c = '$' then _ else scanDollarAmount t) = none
    rw [if_neg hc]
    exact ih ht

theorem scanDue_eq_none :
    ∀ t : List Char, containsSub "due".toList (lowerStr t) = false → scanDue t = none := by
  intro t
  induction t with
  | nil => intro _; rfl
  | cons c t ih =>
    intro h
    rw [show lowerStr (c :: t) = Char.toLower c :: lowerStr t from rfl] at h
    simp only [containsSub, Bool.or_eq_false_iff] at h
    obtain ⟨hpre, htail⟩ := h
    have hstrip : stripPrefixCI "due".toList (c :: t) = none := by
      cases hs : stripPrefixCI "due".toList (c :: t) with
      | none => rfl
      | some rest =>
        have : (stripPrefixCI "due".toList (c :: t)).isSome = true := by rw [hs]; rfl
        rw [stripPrefixCI_isSome] at this
        rw [show lowerStr (c :: t) = Char.toLower c :: lowerStr t from rfl] at this
        rw [this] at hpre
        cases hpre
    show (match stripPrefixCI "due".toList (c :: t) with
      | some rest =>
        match matchDueTail rest with
        | some cap => some cap
        | none => scanDue t
      | none => scanDue t) = none
    rw [hstrip]
    exact ih htail

theorem scanInvoice_eq_none :
    ∀ t : List Char, containsSub "invoice".toList (lowerStr t) = false → scanInvoice t = none := by
  intro t
  induction t with
  | nil => intro _; rfl
  | cons c t ih =>
    intro h
    rw [show lowerStr (c :: t) = Char.toLower c :: lowerStr t from rfl] at h
    simp only [containsSub, Bool.or_eq_false_iff] at h
    obtain ⟨hpre, htail⟩ := h
    have hstrip : stripPrefixCI "invoice".toList (c :: t) = none := by
      cases hs : stripPrefixCI "invoice".toList (c :: t) with
      | none => rfl
      | some rest =>
        have : (stripPrefixCI "invoice".toList (c :: t)).isSome = true := by rw [hs]; rfl
        rw [stripPrefixCI_isSome] at this
        rw [show lowerStr (c :: t) = Char.toLower c :: lowerStr t from rfl] at this
        rw [this] at hpre
        cases hpre
    show (match stripPrefixCI "invoice".toList (c :: t) with
      | some rest =>
        match matchInvoiceTail rest with
        | some cap => some cap
        | none => scanInvoice t
      | none => scanInvoice t) = none
    rw [hstrip]
    exact ih htail

theorem splitOnNewline_shape :
    ∀ t : List Char, ∃ l0 ls, splitOnNewline t = l0 :: ls ∧ l0 <+: t ∧
      ∀ l ∈ ls, l <:+: t := by
  intro t
  induction t with
  | nil => exact ⟨[], [], rfl, List.prefix_refl [], by intro l hl; cases hl⟩
  | cons c t ih =>
    obtain ⟨l0, ls, heq, hpre, hmem⟩ := ih
    by_cases hc : c = '\n'
    · refine ⟨[], l0 :: ls, ?_, List.nil_prefix, ?_⟩
      · show (if c = '\n' then [] :: splitOnNewline t else _) = [] :: (l0 :: ls)
        rw [if_pos hc, heq]
      · intro l hl
        rcases List.mem_cons.mp hl with h1 | h2
        · subst h1
          exact List.infix_cons hpre.isInfix
        · exact List.infix_cons (hmem l h2)
    · refine ⟨c :: l0, ls, ?_, ?_, ?_⟩
      · show (if c = '\n' then [] :: splitOnNewline t else
          match splitOnNewline t with
          | [] => [[c]]
          | l :: ls => (c :: l) :: ls) = (c :: l0) :: ls
        rw [if_neg hc, heq]
      · obtain ⟨u, hu⟩ := hpre
        exact ⟨u, by rw [List.cons_append, hu]⟩
      · intro l hl
        exact List.infix_cons (hmem l hl)

theorem mem_splitOnNewline_infix {t line : List Char} (h : line ∈ splitOnNewline t) :
    line <:+: t := by
  obtain ⟨l0, ls, heq, hpre, hmem⟩ := splitOnNewline_shape t
  rw [heq] at h
  rcases List.mem_cons.mp h with h1 | h2
  · subst h1; exact hpre.isInfix
  · exact hmem line h2

theorem lowerStr_mono {l m : List Char} (h : l <:+: m) : lowerStr l <:+: lowerStr m :=
  List.IsInfix.map Char.toLower h

theorem vendorPrefix_eq_none :
    ∀ l : List Char, containsSub "invoice".toList (lowerStr l) = false →
      containsSub "bill".toList (lowerStr l) = false → vendorPrefix l = none := by
  intro l
  induction l with
  | nil => intro _ _; rfl
  | cons c t ih =>
    intro hinv hbill
    rw [show lowerStr (c :: t) = Char.toLower c :: lowerStr t from rfl] at hinv hbill
    simp only [containsSub, Bool.or_eq_false_iff] at hinv hbill
    obtain ⟨hinv1, hinv2⟩ := hinv
    obtain ⟨hbill1, hbill2⟩ := hbill
    have hsw : (startsWithCI "invoice".toList (c :: t) ||
        startsWithCI "bill".toList (c :: t)) = false := by
      have e1 : startsWithCI "invoice".toList (c :: t) = false := by
        unfold startsWithCI
        rw [stripPrefixCI_isSome]
        exact hinv1
      have e2 : startsWithCI "bill".toList (c :: t) = false := by
        unfold startsWithCI
        rw [stripPrefixCI_isSome]
        exact hbill1
      rw [e1, e2]; rfl
    show (if (startsWithCI "invoice".toList (c :: t) ||
        startsWithCI "bill".toList (c :: t)) = true then some []
      else (vendorPrefix t).map (fun p => c :: p)) = none
    rw [hsw, if_neg Bool.false_ne_true]
    rw [ih hinv2 hbill2]
    rfl

theorem vendorOf_eq_none {t : List Char}
    (hinv : containsSub "invoice".toList (lowerStr t) = false)
    (hbill : containsSub "bill".toList (lowerStr t) = false) : vendorOf t = none := by
  unfold vendorOf
  have hall : firstVendorOfLines (splitOnNewline t) = none := by
    have : ∀ lines : List (List Char), (∀ l ∈ lines, l <:+: t) →
        firstVendorOfLines lines = none := by
      intro lines
      induction lines with
      | nil => intro _; rfl
      | cons l ls ih =>
        intro hm
        have hl : l <:+: t := hm l (List.mem_cons_self l ls)
        have h1 : containsSub "invoice".toList (lowerStr l) = false :=
          containsSub_false_of_infix hinv (lowerStr_mono hl)
        have h2 : containsSub "bill".toList (lowerStr l) = false :=
          containsSub_false_of_infix hbill (lowerStr_mono hl)
        show (match vendorPrefix l with
          | some p => some p
          | none => firstVendorOfLines ls) = none
        rw [vendorPrefix_eq_none l h1 h2]
        exact ih (fun x hx => hm x (List.mem_cons_of_mem l hx))
    exact this _ (fun l hl => mem_splitOnNewline_infix hl)
  rw [hall]
  rfl

theorem merge_idem {r : NormalizedRecord} {extraction : Option BillingExtraction}
    {c : List Char} {s s1 : GraphState} (h : merge r extraction c s = Except.ok s1) :
    merge r extraction c s1 = Except.ok s1 := by
  obtain ⟨hc, hs1, hforall⟩ := merge_ok_elim h
  subst hs1
  unfold merge
  rw [if_pos (show c ∈ (mergeState r extraction c s).cases from hc)]
  rw [mergeState_idem]
  cases hev1 : lookupKey (r.key, c) (mergeState r extraction c s).events with
  | some ev =>
    show (if ev.forCase = c then Except.ok (mergeState r extraction c s)
      else Except.error MergeError.dataIntegrityError) = Except.ok (mergeState r extraction c s)
    rw [if_pos (hforall ev hev1)]
  | none => rfl

theorem classifyDocumentType_eq_none {t : List Char}
    (h1 : containsSub "phone".toList (lowerStr t) = false)
    (h2 : containsSub "telecom".toList (lowerStr t) = false)
    (h3 : containsSub "legal".toList (lowerStr t) = false)
    (h4 : containsSub "attorney".toList (lowerStr t) = false)
    (h5 : containsSub "invoice".toList (lowerStr t) = false) :
    classifyDocumentType t = none := by
  simp only [classifyDocumentType, h1, h2, h3, h4, h5]
  rfl

theorem classifyDocumentType_eq_firstMatchType (t : List Char) :
    classifyDocumentType t = firstMatchType t := by
  unfold classifyDocumentType firstMatchType docTypeRules ruleMatches
  by_cases h1 : containsSub "phone".toList (lowerStr t) = true <;>
  by_cases h2 : containsSub "telecom".toList (lowerStr t) = true <;>
  by_cases h3 : containsSub "legal".toList (lowerStr t) = true <;>
  by_cases h4 : containsSub "attorney".toList (lowerStr t) = true <;>
  by_cases h5 : containsSub "invoice".toList (lowerStr t) = true <;>
  simp_all [List.find?]

/-- C1: the Graph Merge Engine, modelled from the spec, is idempotent: for
every record, extraction and case triple and every starting graph state,
merging n times for any n of at least one yields the same outcome as
merging exactly once, so re-deliveries produce no duplicate nodes or
edges and no further side effects. -/
theorem merge_idempotent_nfold (r : NormalizedRecord) (extraction : Option BillingExtraction)
    (caseKey : List Char) (s : GraphState) (n : Nat) (h : 1 ≤ n) :
    iterateMerge r extraction caseKey n s = merge r extraction caseKey s := by
  induction n with
  | zero => exact absurd h (by simp)
  | succ n ih =>
    cases n with
    | zero =>
      show (Except.ok s).bind (merge r extraction caseKey) = merge r extraction caseKey s
      rfl
    | succ m =>
      show (iterateMerge r extraction caseKey (m + 1) s).bind (merge r extraction caseKey) =
        merge r extraction caseKey s
      rw [ih (by omega)]
      cases hm : merge r extraction caseKey s with
      | error err => rfl
      | ok s1 =>
        show merge r extraction caseKey s1 = Except.ok s1
        exact merge_idem hm

/-- Witness for C1 at a concrete triple and state: two merges equal one. -/
theorem merge_idempotent_nfold_witness :
    (1 : Nat) ≤ 2 ∧
    iterateMerge ⟨"rec-1".toList, 5, some "call with client".toList, none, ["alice".toList]⟩
      (some ⟨some "legal_invoice".toList, some 450, none, some "Acme Law".toList,
        some "42".toList, 8 / 10⟩)
      "CV-2025-123".toList 2
      ⟨["CV-2025-123".toList], [], [], [], []⟩ =
    merge ⟨"rec-1".toList, 5, some "call with client".toList, none, ["alice".toList]⟩
      (some ⟨some "legal_invoice".toList, some 450, none, some "Acme Law".toList,
        some "42".toList, 8 / 10⟩)
      "CV-2025-123".toList
      ⟨["CV-2025-123".toList], [], [], [], []⟩ :=
  ⟨by decide, merge_idempotent_nfold _ _ _ _ 2 (by decide)⟩

/-- C5: extractBillingData is a pure function of the text of the OCR
result: two OCR results with the same text field, whatever their other
fields, extract to identical billing data. -/
theorem extractBillingData_pure_in_text (r1 r2 : OcrResponse) (h : r1.text = r2.text) :
    extractBillingData r1 = extractBillingData r2 := by
  unfold extractBillingData
  rw [h]

/-- Witness for C5 at two concrete OCR results differing only in the
unused json field. -/
theorem extractBillingData_pure_in_text_witness :
    (⟨some "Total: $5".toList, none⟩ : OcrResponse).text =
      (⟨some "Total: $5".toList, some "other json".toList⟩ : OcrResponse).text ∧
    extractBillingData ⟨some "Total: $5".toList, none⟩ =
      extractBillingData ⟨some "Total: $5".toList, some "other json".toList⟩ :=
  ⟨rfl, extractBillingData_pure_in_text _ _ rfl⟩

/-- C2 counterexample: on the empty text no billing pattern matches and
all five optional fields are absent, but the result does not carry
confidence zero — the extractedData shape of the source has no
confidence field at all, so the property read yields no value. -/
theorem extractBillingData_confidence_zero_counterexample :
    extractBillingData ⟨some [], none⟩ =
      { documentType := none, totalAmount := none, dueDate := none, vendor := none,
        invoiceNumber := none } ∧
    ¬ (extractBillingData ⟨some [], none⟩).confidence = some 0 :=
  ⟨rfl, fun h => Option.noConfusion h⟩

/-- C2 as amended: extractBillingData is total (it is a function), and on
any input whose text contains none of the trigger substrings of the five
patterns and of the classification keywords, every optional field is
absent; the result carries no confidence value rather than confidence
zero. -/
theorem extractBillingData_degrades_without_failing (r : OcrResponse)
    (h1 : containsSub "total".toList (lowerStr (r.text.getD [])) = false)
    (h2 : containsSub "amount".toList (lowerStr (r.text.getD [])) = false)
    (h3 : '$' ∉ r.text.getD [])
    (h4 : containsSub "due".toList (lowerStr (r.text.getD [])) = false)
    (h5 : containsSub "invoice".toList (lowerStr (r.text.getD [])) = false)
    (h6 : containsSub "bill".toList (lowerStr (r.text.getD [])) = false)
    (h7 : containsSub "phone".toList (lowerStr (r.text.getD [])) = false)
    (h8 : containsSub "telecom".toList (lowerStr (r.text.getD [])) = false)
    (h9 : containsSub "legal".toList (lowerStr (r.text.getD [])) = false)
    (h10 : containsSub "attorney".toList (lowerStr (r.text.getD [])) = false) :
    extractBillingData r =
      { documentType := none, totalAmount := none, dueDate := none, vendor := none,
        invoiceNumber := none } ∧
    (extractBillingData r).confidence = none := by
  constructor
  · have hshape : extractBillingData r =
        { documentType := classifyDocumentType (r.text.getD [])
          totalAmount := totalAmountOf (r.text.getD [])
          dueDate := scanDue (r.text.getD [])
          vendor := vendorOf (r.text.getD [])
          invoiceNumber := scanInvoice (r.text.getD []) } := rfl
    have e1 : classifyDocumentType (r.text.getD []) = none :=
      classifyDocumentType_eq_none h7 h8 h9 h10 h5
    have e2 : totalAmountOf (r.text.getD []) = none := by
      unfold totalAmountOf
      rw [scanKeywordAmount_eq_none _ _ h1, scanKeywordAmount_eq_none _ _ h2,
        scanDollarAmount_eq_none _ h3]
      rfl
    have e3 : scanDue (r.text.getD []) = none := scanDue_eq_none _ h4
    have e4 : vendorOf (r.text.getD []) = none := vendorOf_eq_none h5 h6
    have e5 : scanInvoice (r.text.getD []) = none := scanInvoice_eq_none _ h5
    rw [hshape, e1, e2, e3, e4, e5]
  · rfl

/-- Witness for C2 at a concrete malformed text with no billing
patterns. -/
theorem extractBillingData_degrades_without_failing_witness :
    containsSub "total".toList (lowerStr ("hello world??".toList)) = false ∧
    extractBillingData ⟨some "hello world??".toList, none⟩ =
      { documentType := none, totalAmount := none, dueDate := none, vendor := none,
        invoiceNumber := none } :=
  ⟨by decide,
    (extractBillingData_degrades_without_failing ⟨some "hello world??".toList, none⟩
      (by decide) (by decide) (by decide) (by decide) (by decide) (by decide) (by decide)
      (by decide) (by decide) (by decide)).1⟩

/-- C3 counterexample: a concrete extraction result that carries no
confidence value, against the claim that every result carries one: the
extractedData shape of the source declares only the five optional fields
and no confidence. -/
theorem extractBillingData_confidence_absent_counterexample :
    ((extractBillingData ⟨some "Invoice 7 total $99".toList, none⟩).confidence).isSome
      = false :=
  rfl

/-- C3 as amended: every extraction result conforms to the shape with the
five optional fields documentType, totalAmount, dueDate, vendor and
invoiceNumber, and never carries a confidence value. -/
theorem extractBillingData_never_carries_confidence (r : OcrResponse) :
    (extractBillingData r).confidence = none :=
  rfl

/-- C4 counterexample: on the text phone legal invoice, the keyword sets
of rule one and of rule two of the ordered rule list both match
(zero-based indices, one less than two), yet the assigned type is not
that of rule one — rule zero matches as well and its type phone_bill
wins.  The pairwise reading of the claim fails whenever three rules
match; only the least-index matching rule wins. -/
theorem classifyDocumentType_pairwise_counterexample :
    ruleMatches "phone legal invoice".toList ((docTypeRules.get ⟨1, by decide⟩).1) = true ∧
    ruleMatches "phone legal invoice".toList ((docTypeRules.get ⟨2, by decide⟩).1) = true ∧
    classifyDocumentType "phone legal invoice".toList ≠
      some ((docTypeRules.get ⟨1, by decide⟩).2) :=
  ⟨by decide, by decide, by decide⟩

/-- C4 as amended: document-type classification equals first-match-wins
lookup into the fixed ordered rule list, the least-index matching rule
determining the type, and a text matching no rule gets no document
type. -/
theorem classifyDocumentType_first_match_wins (t : List Char) :
    classifyDocumentType t = firstMatchType t ∧
    ((∀ rule ∈ docTypeRules, ruleMatches t rule.1 = false) →
      classifyDocumentType t = none) := by
  refine ⟨classifyDocumentType_eq_firstMatchType t, ?_⟩
  intro hall
  rw [classifyDocumentType_eq_firstMatchType t]
  unfold firstMatchType
  rw [List.find?_eq_none.mpr (fun rule hr => by rw [hall rule hr]; simp)]
  rfl

/-- Witness for C4 at a concrete text matching no rule. -/
theorem classifyDocumentType_first_match_wins_witness :
    (∀ rule ∈ docTypeRules, ruleMatches "hello".toList rule.1 = false) ∧
    classifyDocumentType "hello".toList = none :=
  ⟨by decide, (classifyDocumentType_first_match_wins "hello".toList).2 (by decide)⟩

/-- C6 counterexample: with the OCR endpoint answering status 500, the
failure surfaces as a plain JavaScript Error, name Error, with message
Mistral OCR API error: 500 Internal Server Error — not as an
ExtractionUnavailable error, a classification that exists nowhere in the
source, and with no retryable marker. -/
theorem ocr_failure_not_extraction_unavailable_counterexample :
    (processPDFWithMistralOCR
      ⟨fun _ _ => Except.ok ⟨"JVBERi0x".toList, 8⟩,
       fun _ _ => Except.ok ⟨false, 500, "Internal Server Error".toList,
         Except.ok ⟨none, none⟩⟩⟩
      "msg-1".toList ⟨"att-1".toList, "bill.pdf".toList, "application/pdf".toList⟩).1 =
      Except.error ⟨"Error".toList,
        "Mistral OCR API error: 500 Internal Server Error".toList⟩ ∧
    "Error".toList ≠ "ExtractionUnavailable".toList :=
  ⟨rfl, by decide⟩

/-- C6 as amended: when the attachment fetch succeeds and the OCR
endpoint answers a non-ok response, processPDFWithMistralOCR fails with a
plain Error, name Error, whose message is Mistral OCR API error followed
by the status and status text; the error carries no
ExtractionUnavailable classification and no retryable marker. -/
theorem ocr_failure_surfaces_generic_error (env : Env) (messageId : List Char)
    (att : Attachment) (ad : AttachmentData) (resp : FetchResponse)
    (hga : env.getAttachment messageId att.attachmentId = Except.ok ad)
    (hf : env.fetchOcr att.filename ad.data = Except.ok resp)
    (hok : resp.ok = false) :
    (processPDFWithMistralOCR env messageId att).1 =
      Except.error ⟨"Error".toList,
        ("Mistral OCR API error: " ++ Nat.repr resp.status ++ " ").toList
          ++ resp.statusText⟩ := by
  unfold processPDFWithMistralOCR
  simp only [hga, hf, hok, Bool.false_eq_true, if_false]

theorem processPDFWithMistralOCR_trace (env : Env) (messageId : List Char) (a : Attachment) :
    (processPDFWithMistralOCR env messageId a).2 =
      [Effect.getAttachment messageId a.attachmentId] ∨
    (processPDFWithMistralOCR env messageId a).2 =
      [Effect.getAttachment messageId a.attachmentId, Effect.fetchOcr a.filename] := by
  unfold processPDFWithMistralOCR
  cases env.getAttachment messageId a.attachmentId with
  | error e => exact Or.inl rfl
  | ok ad =>
    dsimp only
    cases env.fetchOcr a.filename ad.data with
    | error e => exact Or.inr rfl
    | ok resp =>
      dsimp only
      cases resp.ok with
      | false => exact Or.inr rfl
      | true =>
        cases resp.body with
        | error e => exact Or.inr rfl
        | ok result => exact Or.inr rfl

theorem enrichOne_trace (env : Env) (messageId : List Char) (a : Attachment) :
    (enrichOneAttachment env messageId a).2 =
      if (a.mimeType == pdfMime) = true then (processPDFWithMistralOCR env messageId a).2
      else [] := by
  unfold enrichOneAttachment
  by_cases hm : (a.mimeType == pdfMime) = true
  · rw [if_pos hm, if_pos hm]
    rcases hp : processPDFWithMistralOCR env messageId a with ⟨res, tr⟩
    cases res with
    | error e => rfl
    | ok r => rfl
  · rw [if_neg hm, if_neg hm]

theorem enrichOne_counts (env : Env) (messageId : List Char) (a : Attachment) :
    countGetAttachment (enrichOneAttachment env messageId a).2 ≤ 1 ∧
    countFetchOcr (enrichOneAttachment env messageId a).2 ≤ 1 := by
  rw [enrichOne_trace]
  by_cases hm : (a.mimeType == pdfMime) = true
  · rw [if_pos hm]
    rcases processPDFWithMistralOCR_trace env messageId a with h | h <;> rw [h] <;>
      exact ⟨by simp [countGetAttachment], by simp [countFetchOcr]⟩
  · rw [if_neg hm]
    exact ⟨by simp [countGetAttachment], by simp [countFetchOcr]⟩

theorem flatMap_nil_of_forall {α β : Type} (l : List α) (f : α → List β)
    (h : ∀ a ∈ l, f a = []) : l.flatMap f = [] := by
  induction l with
  | nil => rfl
  | cons a t ih =>
    rw [List.flatMap_cons, h a (List.mem_cons_self a t), List.nil_append]
    exact ih (fun x hx => h x (List.mem_cons_of_mem a hx))

theorem enrichOne_of_error (env : Env) (messageId : List Char) (a : Attachment) (e : JsError)
    (hm : (a.mimeType == pdfMime) = true)
    (he : (processPDFWithMistralOCR env messageId a).1 = Except.error e) :
    (enrichOneAttachment env messageId a).1 = ⟨a, some (mistralFailureResult a e)⟩ := by
  unfold enrichOneAttachment
  rw [if_pos hm]
  rcases hp : processPDFWithMistralOCR env messageId a with ⟨res, tr⟩
  rw [hp] at he
  cases res with
  | ok r => exact absurd he (by simp)
  | error e2 =>
    have he2 : e2 = e := by
      dsimp only at he
      injection he
    subst he2
    rfl

theorem enrichOne_of_nonpdf (env : Env) (messageId : List Char) (a : Attachment)
    (hm : (a.mimeType == pdfMime) = false) :
    (enrichOneAttachment env messageId a).1 = ⟨a, none⟩ := by
  unfold enrichOneAttachment
  rw [if_neg (by rw [hm]; exact Bool.false_ne_true)]

/-- Witness for C6 at a concrete environment answering status 502. -/
theorem ocr_failure_surfaces_generic_error_witness :
    (processPDFWithMistralOCR
      ⟨fun _ _ => Except.ok ⟨"JVBERi0x".toList, 8⟩,
       fun _ _ => Except.ok ⟨false, 502, "Bad Gateway".toList, Except.ok ⟨none, none⟩⟩⟩
      "msg-2".toList ⟨"att-9".toList, "bill.pdf".toList, "application/pdf".toList⟩).1 =
      Except.error ⟨"Error".toList,
        ("Mistral OCR API error: " ++ Nat.repr 502 ++ " ").toList
          ++ "Bad Gateway".toList⟩ :=
  ocr_failure_surfaces_generic_error
    ⟨fun _ _ => Except.ok ⟨"JVBERi0x".toList, 8⟩,
     fun _ _ => Except.ok ⟨false, 502, "Bad Gateway".toList, Except.ok ⟨none, none⟩⟩⟩
    "msg-2".toList ⟨"att-9".toList, "bill.pdf".toList, "application/pdf".toList⟩
    ⟨"JVBERi0x".toList, 8⟩
    ⟨false, 502, "Bad Gateway".toList, Except.ok ⟨none, none⟩⟩
    rfl rfl rfl

/-- C7: no internal retries: the external-call trace of
processPDFAttachments is the in-order concatenation of one sub-trace per
attachment, and for any single attachment the sub-trace holds at most one
attachment-data fetch and at most one OCR endpoint call. -/
theorem processPDFAttachments_single_calls (env : Env) (message : ParsedMessage) :
    (processPDFAttachments env message).2 =
      (message.attachments.getD []).flatMap
        (fun a => (enrichOneAttachment env message.id a).2) ∧
    ∀ (messageId : List Char) (a : Attachment),
      countGetAttachment (enrichOneAttachment env messageId a).2 ≤ 1 ∧
      countFetchOcr (enrichOneAttachment env messageId a).2 ≤ 1 := by
  refine ⟨?_, fun messageId a => enrichOne_counts env messageId a⟩
  unfold processPDFAttachments
  cases hatt : message.attachments with
  | none => rfl
  | some atts =>
    dsimp only
    by_cases he : atts.isEmpty = true
    · rw [if_pos he]
      have h0 : atts = [] := List.isEmpty_iff.mp he
      subst h0
      rfl
    · rw [if_neg he]
      by_cases hp : (atts.filter (fun a => a.mimeType == pdfMime)).isEmpty = true
      · rw [if_pos hp]
        have hnone : ∀ a ∈ atts, (a.mimeType == pdfMime) = false := by
          intro a ha
          have hnp := List.filter_eq_nil_iff.mp (List.isEmpty_iff.mp hp) a ha
          cases hmm : (a.mimeType == pdfMime) with
          | false => rfl
          | true => exact absurd hmm hnp
        symm
        apply flatMap_nil_of_forall
        intro a ha
        rw [enrichOne_trace]
        rw [if_neg (by rw [hnone a ha]; exact Bool.false_ne_true)]
      · rw [if_neg hp]
        rfl

/-- C8: for a message whose attachment list is absent, empty, or free of
PDF attachments, processPDFAttachments returns the input message
unchanged, with no enrichedAttachments field. -/
theorem processPDFAttachments_frame (env : Env) (message : ParsedMessage)
    (h : message.attachments = none ∨ message.attachments = some [] ∨
      ∀ a ∈ message.attachments.getD [], (a.mimeType == pdfMime) = false) :
    (processPDFAttachments env message).1 = ⟨message, none⟩ := by
  unfold processPDFAttachments
  cases hatt : message.attachments with
  | none => rfl
  | some atts =>
    dsimp only
    rcases h with h | h | h
    · rw [hatt] at h; exact Option.noConfusion h
    · rw [hatt] at h
      injection h with h2
      subst h2
      rfl
    · rw [hatt] at h
      by_cases he : atts.isEmpty = true
      · rw [if_pos he]
      · rw [if_neg he]
        have hfil : atts.filter (fun a => a.mimeType == pdfMime) = [] :=
          List.filter_eq_nil_iff.mpr (fun a ha => by rw [h a ha]; exact Bool.false_ne_true)
        rw [hfil]
        rfl

/-- Witness for C8 at a concrete message with a single non-PDF
attachment. -/
theorem processPDFAttachments_frame_witness :
    (processPDFAttachments
      ⟨fun _ _ => Except.error ⟨"Error".toList, "net down".toList⟩,
       fun _ _ => Except.error ⟨"Error".toList, "net down".toList⟩⟩
      ⟨"m1".toList, "Invoice".toList, "a@b.example".toList,
        some [⟨"a1".toList, "notes.txt".toList, "text/plain".toList⟩]⟩).1 =
      ⟨⟨"m1".toList, "Invoice".toList, "a@b.example".toList,
        some [⟨"a1".toList, "notes.txt".toList, "text/plain".toList⟩]⟩, none⟩ :=
  processPDFAttachments_frame _ _ (Or.inr (Or.inr (by decide)))

/-- C9: per-attachment failure isolation: when some attachment is a PDF,
processPDFAttachments returns one enriched entry per input attachment in
the original order (never propagating an error), a PDF attachment whose
processing threw getting a failure record carrying the error message, and
a non-PDF attachment kept unchanged. -/
theorem processPDFAttachments_isolates_failures (env : Env) (message : ParsedMessage)
    (atts : List Attachment) (hatt : message.attachments = some atts)
    (hpdf : atts.filter (fun a => a.mimeType == pdfMime) ≠ []) :
    (processPDFAttachments env message).1.enrichedAttachments =
      some (atts.map (fun a => (enrichOneAttachment env message.id a).1)) ∧
    (atts.map (fun a => (enrichOneAttachment env message.id a).1)).length = atts.length ∧
    (∀ (a : Attachment) (e : JsError), (a.mimeType == pdfMime) = true →
      (processPDFWithMistralOCR env message.id a).1 = Except.error e →
      (enrichOneAttachment env message.id a).1 =
        ⟨a, some ⟨a.attachmentId, a.filename, false, none, none, some e.message⟩⟩) ∧
    (∀ a : Attachment, (a.mimeType == pdfMime) = false →
      (enrichOneAttachment env message.id a).1 = ⟨a, none⟩) := by
  refine ⟨?_, List.length_map atts _,
    fun a e hm hhe => enrichOne_of_error env message.id a e hm hhe,
    fun a hm => enrichOne_of_nonpdf env message.id a hm⟩
  unfold processPDFAttachments
  rw [hatt]
  dsimp only
  have hne : ¬ atts.isEmpty = true := by
    intro h0
    exact hpdf (by rw [List.isEmpty_iff.mp h0]; rfl)
  rw [if_neg hne]
  have hp2 : ¬ (atts.filter (fun a => a.mimeType == pdfMime)).isEmpty = true :=
    fun h0 => hpdf (List.isEmpty_iff.mp h0)
  rw [if_neg hp2]

/-- Witness for C9 at a concrete message with one failing PDF attachment
and one non-PDF attachment. -/
theorem processPDFAttachments_isolates_failures_witness :
    ([(⟨"a1".toList, "b.pdf".toList, "application/pdf".toList⟩ : Attachment),
      ⟨"a2".toList, "n.txt".toList, "text/plain".toList⟩].filter
        (fun a => a.mimeType == pdfMime) ≠ []) ∧
    (processPDFAttachments
      ⟨fun _ _ => Except.error ⟨"Error".toList, "boom".toList⟩,
       fun _ _ => Except.error ⟨"Error".toList, "boom".toList⟩⟩
      ⟨"m1".toList, "s".toList, "f".toList,
        some [⟨"a1".toList, "b.pdf".toList, "application/pdf".toList⟩,
          ⟨"a2".toList, "n.txt".toList, "text/plain".toList⟩]⟩).1.enrichedAttachments =
      some ([(⟨"a1".toList, "b.pdf".toList, "application/pdf".toList⟩ : Attachment),
          ⟨"a2".toList, "n.txt".toList, "text/plain".toList⟩].map
        (fun a => (enrichOneAttachment
          ⟨fun _ _ => Except.error ⟨"Error".toList, "boom".toList⟩,
           fun _ _ => Except.error ⟨"Error".toList, "boom".toList⟩⟩ "m1".toList a).1)) :=
  ⟨by decide,
    (processPDFAttachments_isolates_failures _ _ _ rfl (by decide)).1⟩

/-- C10: isLikelyBillingMessage holds exactly when some billing keyword
occurs case-insensitively in the subject or the from header and some
attachment has the PDF mime type; in particular it is false for every
message without PDF attachments. -/
theorem isLikelyBillingMessage_iff (message : ParsedMessage) :
    isLikelyBillingMessage message = true ↔
      ((∃ kw ∈ billingKeywords, kw <:+: lowerStr message.subject ∨
          kw <:+: lowerStr message.headersFrom) ∧
        ∃ a ∈ message.attachments.getD [], a.mimeType = pdfMime) := by
  have hdef : isLikelyBillingMessage message =
      (billingKeywords.any (fun k => containsSub k (lowerStr message.subject) ||
        containsSub k (lowerStr message.headersFrom)) &&
       (match message.attachments with
        | some atts => atts.any (fun a => a.mimeType == pdfMime)
        | none => false)) := rfl
  rw [hdef, Bool.and_eq_true]
  constructor
  · rintro ⟨h1, h2⟩
    constructor
    · obtain ⟨kw, hkw, hc⟩ := List.any_eq_true.mp h1
      refine ⟨kw, hkw, ?_⟩
      rcases (Bool.or_eq_true _ _) ▸ hc with hc1 | hc2
      · exact Or.inl ((containsSub_iff_occurs kw _).mp hc1)
      · exact Or.inr ((containsSub_iff_occurs kw _).mp hc2)
    · cases hatt : message.attachments with
      | none => rw [hatt] at h2; exact Bool.noConfusion h2
      | some atts =>
        rw [hatt] at h2
        obtain ⟨a, ha, hpa⟩ := List.any_eq_true.mp h2
        exact ⟨a, ha, beq_iff_eq.mp hpa⟩
  · rintro ⟨⟨kw, hkw, hor⟩, ⟨a, ha, hpa⟩⟩
    constructor
    · refine List.any_eq_true.mpr ⟨kw, hkw, ?_⟩
      rw [Bool.or_eq_true]
      rcases hor with h | h
      · exact Or.inl ((containsSub_iff_occurs kw _).mpr h)
      · exact Or.inr ((containsSub_iff_occurs kw _).mpr h)
    · cases hatt : message.attachments with
      | none =>
        rw [hatt] at ha
        exact absurd ha (List.not_mem_nil a)
      | some atts =>
        rw [hatt] at ha
        exact List.any_eq_true.mpr ⟨a, ha, beq_iff_eq.mpr hpa⟩

end BillHero
